import Mathlib

/-!
Verification of the crawler/mirroring engine of the Domorph agent
(`src/tools.js`): URL normalization, the scrape scheduler with its visited
set and frontier, per-page asset relocation and link rewriting, the mirror
server lifecycle, and the plain-text HTML update tool.

JavaScript strings are modelled as Lean `String`s, JavaScript `null` /
`undefined` attribute values as `Option String`, thrown exceptions of a
fallible step as `Option` results, and the WHATWG URL parser used by
`new URL(...)` as a simplified concrete parser over a record of URL
components.  JavaScript truthiness on strings (`!s`) is modelled as the
test `s = ""` on present strings.
-/

set_option autoImplicit false

namespace Domorph

/-! ### Small string helpers (JavaScript primitives) -/

/-- `listHasPre hay needle` decides whether `needle` occurs at the start of
`hay` (character-wise). Helper for the substring test below. -/
def listHasPre : List Char → List Char → Bool
  | _, [] => true
  | [], _ :: _ => false
  | a :: as, b :: bs => a = b && listHasPre as bs

/-- `listHasSub needle hay` decides whether `needle` occurs contiguously
somewhere in `hay`. -/
def listHasSub (needle : List Char) : List Char → Bool
  | [] => listHasPre [] needle
  | c :: t => listHasPre (c :: t) needle || listHasSub needle t

/-- JavaScript `s.includes(sub)`: substring containment test. -/
def jsIncludes (s sub : String) : Bool :=
  listHasSub sub.toList s.toList

/-- JavaScript `s.split(sep)` for a one-character separator: split into
the (possibly empty) chunks between occurrences of `sep`; the result is
never empty. -/
def splitOnChar (sep : Char) : List Char → List (List Char)
  | [] => [[]]
  | c :: rest =>
    let r := splitOnChar sep rest
    if c = sep then [] :: r
    else
      match r with
      | [] => [[c]]
      | g :: gs => (c :: g) :: gs

/-- JavaScript `parts.join(sep)` / the inverse of splitting. -/
def joinWith (sep : List Char) : List (List Char) → List Char
  | [] => []
  | [g] => g
  | g :: gs => g ++ sep ++ joinWith sep gs

/-- The whitespace characters JavaScript `trim` removes (the ones that
occur in HTML attributes). -/
def isJsSpace (c : Char) : Bool :=
  c = ' ' || c = '\t' || c = '\n' || c = '\r'

/-- Drop leading whitespace. -/
def dropLeadingSpace : List Char → List Char
  | [] => []
  | c :: r => if isJsSpace c then dropLeadingSpace r else c :: r

/-- JavaScript `s.trim()`. -/
def jsTrim (l : List Char) : List Char :=
  (dropLeadingSpace ((dropLeadingSpace l).reverse)).reverse

/-- JavaScript `parseInt`-style digit-string reading, used to model
reading the number of a `srcset` descriptor: `some n` exactly when the
string is a non-empty run of decimal digits. -/
def listToNat? (l : List Char) : Option Nat :=
  match l with
  | [] => none
  | _ :: _ =>
    l.foldl
      (fun acc c =>
        match acc with
        | none => none
        | some n => if c.isDigit then some (n * 10 + (c.toNat - 48)) else none)
      (some 0)

/-- JavaScript `s.replace(/\/$/, "")`: remove a single trailing slash. -/
def stripTrailingSlash (s : String) : String :=
  if s.toList.getLast? = some '/' then ⟨s.toList.dropLast⟩ else s

/-- JavaScript `Array.from(new Set(l))`: de-duplicate keeping the first
occurrence of each element, preserving order. -/
def jsSetDedup (l : List String) : List String :=
  l.foldl (fun acc x => if x ∈ acc then acc else acc ++ [x]) []

/-! ### URL model

Model of the WHATWG `URL` objects produced by `new URL(...)` in
`src/tools.js`.  Only the components the crawler reads are kept. -/

/-- A parsed URL: the components of a WHATWG `URL` object read by the
crawler (`origin`, `pathname`, `search`, `hash`). `search` carries its
leading `?` and `hash` its leading `#` exactly as in the DOM API, or `""`
when absent. -/
structure URLRec where
  scheme : String
  host : String
  pathname : String
  search : String
  hash : String
deriving DecidableEq, Repr

/-- The `origin` property of a WHATWG URL: scheme and host. -/
def URLRec.origin (u : URLRec) : String :=
  u.scheme ++ "://" ++ u.host

/-- The serialization `url.toString()` / `url.href` of a parsed URL. -/
def serializeUrl (u : URLRec) : String :=
  u.scheme ++ "://" ++ u.host ++ u.pathname ++ u.search ++ u.hash

/-- Simplified concrete model of the WHATWG URL parser invoked by
`new URL(rawUrl)` in `src/tools.js` (the parser itself is Node runtime
code, not repository code): accepts absolute `http://` / `https://` URLs,
splitting off fragment and query, and fails (`none`, modelling the thrown
`TypeError`) on anything else. -/
def parseAbsoluteUrl (s : String) : Option URLRec :=
  let split1 := splitOnChar '#' s.toList
  let beforeHash := split1.headD []
  let hash : List Char := match split1 with
    | _ :: r :: rs => '#' :: joinWith ['#'] (r :: rs)
    | _ => []
  let split2 := splitOnChar '?' beforeHash
  let beforeQuery := split2.headD []
  let search : List Char := match split2 with
    | _ :: r :: rs => '?' :: joinWith ['?'] (r :: rs)
    | _ => []
  let parseWith := fun (scheme : List Char) =>
    if listHasPre beforeQuery (scheme ++ [':', '/', '/']) then
      let rest := beforeQuery.drop (scheme.length + 3)
      match splitOnChar '/' rest with
      | [] => none
      | host :: pathSegs =>
        if host = [] then none
        else
          let pathname : List Char :=
            if pathSegs = [] then ['/'] else '/' :: joinWith ['/'] pathSegs
          some { scheme := ⟨scheme⟩, host := ⟨host⟩, pathname := ⟨pathname⟩,
                 search := ⟨search⟩, hash := ⟨hash⟩ }
    else none
  match parseWith "http".toList with
  | some u => some u
  | none => parseWith "https".toList

/-- `normalizeUrl` from `src/tools.js` lines 70–79: parse the raw URL
(`none` models the `catch` branch returning `null`), blank out hash and
search, serialize, and strip a single trailing slash. -/
def normalizeUrl (rawUrl : String) : Option String :=
  match parseAbsoluteUrl rawUrl with
  | none => none
  | some u =>
    some (stripTrailingSlash (serializeUrl { u with search := "", hash := "" }))

/-- `urlToPath` from `src/tools.js` lines 81–86: map a page URL to its
mirror file path `<baseDir>/<pathname>.html`, the root pathname mapping to
`/index`. The `parsed` argument is the result of `new URL(url)`. -/
def urlToPath (baseDir : String) (parsed : URLRec) : String :=
  let pathname := stripTrailingSlash parsed.pathname
  let pathname := if pathname = "" then "/index" else pathname
  baseDir ++ pathname ++ ".html"

/-! ### Anchor rewriting (scrapePage, lines 229–245) -/

/-- The pathname part of a rewritten anchor:
`url.pathname.replace(/\/$/, "") || "/index"` from `src/tools.js`
line 237. -/
def anchorPathPart (pathname : String) : String :=
  let p := stripTrailingSlash pathname
  if p = "" then "/index" else p

/-- One step of the anchor rewriting pass of `scrapePage`
(`src/tools.js` lines 230–245): `parsed` is the result of
`new URL(a.href, baseOrigin)` (`none` when that throws, which the empty
`catch` turns into leaving the anchor untouched). Same-origin anchors are
repointed at `/scraped_website<path>.html<hash>`; all others keep their
original `href`. -/
def rewriteAnchorHref (baseOrigin href : String) (parsed : Option URLRec) : String :=
  match parsed with
  | none => href
  | some u =>
    if URLRec.origin u = baseOrigin then
      "/scraped_website" ++ anchorPathPart u.pathname ++ ".html" ++ u.hash
    else href

/-! ### Responsive image source selection (scrapePage, lines 130–149) -/

/-- `getBestSrc` from `src/tools.js` lines 132–136: split the `srcset`
attribute on commas, take the first whitespace-separated token of each
entry, and return the **last** candidate (`candidates[candidates.length-1]
|| null`). The argument is the raw attribute (`none` when absent). -/
def getBestSrc (srcset : Option String) : Option String :=
  match srcset with
  | none => none
  | some s =>
    if s = "" then none
    else
      let candidates :=
        (splitOnChar ',' s.toList).map (fun c => (splitOnChar ' ' (jsTrim c)).headD [])
      match candidates.getLast? with
      | none => none
      | some c => if c = [] then none else some (⟨c⟩ : String)

/-- The effective source chosen for an `<img>` in `src/tools.js`
lines 138–141: the `getBestSrc` candidate when there is one, otherwise the
plain `src` attribute (empty string when that is absent too). -/
def imgEffectiveSrc (srcset src : Option String) : String :=
  match getBestSrc srcset with
  | some s => s
  | none => src.getD ""

/-- The URL of the last comma-separated `srcset` entry (first
whitespace-separated token of that entry). Used to state what
`getBestSrc` computes. -/
def lastCandidateUrl (s : String) : String :=
  match (splitOnChar ',' s.toList).getLast? with
  | none => ""
  | some entry => ⟨(splitOnChar ' ' (jsTrim entry)).headD []⟩

/-- Modelled from the spec's words ("preferring the highest-resolution
candidate in a responsive-image source set"): the numeric value of a
`srcset` resolution descriptor such as `2x` or `640w`; an absent or
unreadable descriptor counts as density 1. -/
def descriptorRes (d : String) : Nat :=
  let l := d.toList
  if l.getLast? = some 'x' || l.getLast? = some 'w' then
    (listToNat? l.dropLast).getD 1
  else 1

/-- Modelled from the spec's words: the comma-separated entries of a
`srcset` attribute as (URL, descriptor) pairs. -/
def srcsetEntries (s : String) : List (String × String) :=
  (splitOnChar ',' s.toList).map (fun c =>
    match splitOnChar ' ' (jsTrim c) with
    | [] => ("", "")
    | u :: rest => (⟨u⟩, ⟨jsTrim (joinWith [' '] rest)⟩))

/-- Modelled from the spec's words: the URL of the candidate of a `srcset`
with the greatest resolution descriptor (the first such candidate when
tied). This is the claimed selection rule, stated independently of the
source, for comparison with `getBestSrc`. -/
def highestResCandidateUrl (s : String) : Option String :=
  match srcsetEntries s with
  | [] => none
  | e :: es =>
    some ((es.foldl (fun best e2 =>
      if descriptorRes e2.2 > descriptorRes best.2 then e2 else best) e).1)

/-! ### Link discovery (extractInternalLinks, lines 88–110) -/

/-- `extractInternalLinks` from `src/tools.js` lines 88–110 applied to the
raw `href` values of the page's anchors: resolve each (the `catch` maps a
parse failure to `null`), keep same-origin ones, normalize, drop the
unparsable, and de-duplicate via `new Set`. -/
def extractInternalLinks (origin : String) (hrefs : List String) : List String :=
  jsSetDedup
    ((hrefs.filterMap (fun link =>
        match parseAbsoluteUrl link with
        | none => none
        | some u => if URLRec.origin u = origin then some (serializeUrl u) else none)
      ).filterMap normalizeUrl)

/-! ### Crawl scheduler (scrapePage / webScraping, lines 112–373)

The scheduler state is modelled over already-normalized URL strings: the
frontier `queue` only ever holds outputs of `normalizeUrl`, on which
`normalizeUrl` acts as the identity, so `scrapePage`'s re-normalization of
its argument is dropped.  A crawled site is abstracted as the finite list
of its distinct normalized same-origin URLs together with, per page, the
normalized links `extractInternalLinks` reports and whether `page.goto`
succeeds (`ok`). -/

/-- `CONCURRENCY_LIMIT` from `src/tools.js` line 23. -/
def CONCURRENCY_LIMIT : Nat := 5

/-- Abstraction of the crawled site as seen by the scheduler: its distinct
normalized URLs, the normalized same-origin links each page reports, and
whether each page's navigation succeeds. -/
structure Site where
  urls : List String
  links : String → List String
  ok : String → Bool

/-- Well-formedness of a `Site` abstraction: reported links stay inside
the site's URL universe and are de-duplicated (as `extractInternalLinks`
guarantees via `new Set`). -/
structure SiteWF (site : Site) : Prop where
  links_mem : ∀ u, ∀ l ∈ site.links u, l ∈ site.urls
  links_nodup : ∀ u, (site.links u).Nodup

/-- The mutable crawl state of `webScraping`: the `visited` set (as the
list of its insertions, newest first), the frontier `queue`, and the pages
for which a mirror file has been written (in write order). -/
structure CrawlState where
  visited : List String
  queue : List String
  files : List String
deriving DecidableEq, Repr

/-- The discovered-link enqueue guard of `scrapePage`
(`src/tools.js` lines 223–227): push the link at the back of the frontier
only when it is neither visited nor already queued. -/
def enqueueLink (visited queue : List String) (l : String) : List String :=
  if l ∉ visited ∧ l ∉ queue then queue ++ [l] else queue

/-- One `scrapePage` call (`src/tools.js` lines 112–292) as a state
transformer: a target already visited returns immediately; otherwise it is
added to `visited` before any rendering starts. On navigation success the
page's links are run through the enqueue guard and its mirror file is
written; on navigation failure (`catch`, line 287) nothing else happens. -/
def processOne (site : Site) (s : CrawlState) (u : String) : CrawlState :=
  if u ∈ s.visited then s
  else
    let visited := u :: s.visited
    if site.ok u then
      { visited := visited
        queue := (site.links u).foldl (fun q l => enqueueLink visited q l) s.queue
        files := s.files ++ [u] }
    else
      { visited := visited, queue := s.queue, files := s.files }

/-- One iteration of the dequeue loop of `webScraping`
(`src/tools.js` lines 315–322): splice up to `CONCURRENCY_LIMIT` targets
off the frontier and process the batch. -/
def crawlStep (site : Site) (s : CrawlState) : CrawlState :=
  let batch := s.queue.take CONCURRENCY_LIMIT
  let s1 : CrawlState := { s with queue := s.queue.drop CONCURRENCY_LIMIT }
  batch.foldl (processOne site) s1

/-- The dequeue loop of `webScraping` (`while (queue.length > 0)`),
with explicit fuel; `crawl_reaches_empty_frontier` below shows the fuel
`crawlMeasure` always suffices to drain the frontier. -/
def crawlLoop (site : Site) : Nat → CrawlState → CrawlState
  | 0, s => s
  | fuel + 1, s => if s.queue = [] then s else crawlLoop site fuel (crawlStep site s)

/-- Number of universe URLs not yet visited. -/
def unvisitedCount (site : Site) (s : CrawlState) : Nat :=
  (site.urls.toFinset \ s.visited.toFinset).card

/-- Termination measure for the dequeue loop: it strictly decreases at
every iteration on a well-formed site. -/
def crawlMeasure (site : Site) (s : CrawlState) : Nat :=
  unvisitedCount site s * (site.urls.length + 1) + s.queue.length

/-- Every frontier entry belongs to the site's URL universe. -/
def queueInv (site : Site) (s : CrawlState) : Prop :=
  ∀ x ∈ s.queue, x ∈ site.urls

/-- The crawl state `webScraping` starts from: empty visited set, the
frontier seeded with the single normalized seed. -/
def initialCrawlState (seed : String) : CrawlState :=
  { visited := [], queue := [seed], files := [] }

/-- Result of `webScraping` (`src/tools.js` lines 294–373):
`invalidOrMissing` is the early `"Invalid or missing URL."` return, and
`scraped n files` the normal return reporting `visited.size` pages. -/
inductive ScrapeOutcome where
  | invalidOrMissing
  | scraped (pagesVisited : Nat) (files : List String)
deriving DecidableEq, Repr

/-- `webScraping` from `src/tools.js` lines 294–373 (the browser launch
and the serving step are not modelled; the crawl itself is). The guard
`!url || typeof url !== "string"` is modelled by the `none` input (missing
or non-string) and the empty string (falsy). The frontier is seeded with
`normalizeUrl url`; when that is `null`, the single dequeued entry is
dropped by `scrapePage`'s own normalization guard (lines 113–114), so the
loop drains with no page visited and the run returns normally. -/
def webScraping (site : Site) (url : Option String) : ScrapeOutcome :=
  match url with
  | none => .invalidOrMissing
  | some u =>
    if u = "" then .invalidOrMissing
    else
      match normalizeUrl u with
      | none => .scraped 0 []
      | some seed =>
        let s0 := initialCrawlState seed
        let final := crawlLoop site (crawlMeasure site s0) s0
        .scraped final.visited.length final.files

/-! ### Interleaved crawl trace model (scrapePage under concurrency)

`webScraping` runs up to `CONCURRENCY_LIMIT` `scrapePage` calls
concurrently.  JavaScript interleaves them only at `await` points, so the
synchronous block at `src/tools.js` lines 113–115 (visited check plus
insertion) is one atomic action, as is the enqueue guard at lines 223–227
and the final file write / catch.  The model below over-approximates the
scheduler: actions of different workers may interleave arbitrarily. -/

/-- The per-worker crawl state as shared by concurrent `scrapePage` calls:
`pending` are targets whose render is in flight, `rendered` the targets
ever dispatched to a render (in dispatch order). -/
structure TraceState where
  visited : List String
  queue : List String
  pending : List String
  rendered : List String
  files : List String
deriving DecidableEq, Repr

/-- Atomic actions of concurrent `scrapePage` workers. -/
inductive CrawlAct where
  | dispatch (u : String)
  | dispatchHit (u : String)
  | discover (u : String)
  | finishOk (u : String)
  | finishFail (u : String)
deriving DecidableEq, Repr

/-- Small-step semantics of the atomic actions:
`dispatch` is the synchronous visited-check-and-insert of
`src/tools.js` lines 113–115 followed by the start of the render;
`dispatchHit` the early return on an already-visited target;
`discover` the enqueue guard of lines 223–227 run by whichever worker is
active; `finishOk` the file write of line 285; `finishFail` the
per-target `catch` of line 287 (no file). -/
inductive CStep : TraceState → CrawlAct → TraceState → Prop
  | dispatch {s : TraceState} {u : String} (h : u ∉ s.visited) :
      CStep s (.dispatch u)
        { s with visited := u :: s.visited, pending := u :: s.pending,
                 rendered := s.rendered ++ [u] }
  | dispatchHit {s : TraceState} {u : String} (h : u ∈ s.visited) :
      CStep s (.dispatchHit u) s
  | discover {s : TraceState} {l : String} :
      CStep s (.discover l) { s with queue := enqueueLink s.visited s.queue l }
  | finishOk {s : TraceState} {u : String} (h : u ∈ s.pending) :
      CStep s (.finishOk u)
        { s with pending := s.pending.erase u, files := s.files ++ [u] }
  | finishFail {s : TraceState} {u : String} (h : u ∈ s.pending) :
      CStep s (.finishFail u) { s with pending := s.pending.erase u }

/-- Reachability through any finite interleaving of worker actions. -/
inductive Trace : TraceState → TraceState → Prop
  | refl (s : TraceState) : Trace s s
  | step {s1 s3 : TraceState} {a : CrawlAct} {s2 : TraceState} :
      CStep s1 a s2 → Trace s2 s3 → Trace s1 s3

/-- The crawl state a run starts from: empty visited set, pending set and
output, arbitrary seeded frontier. -/
def initialTraceState (queue : List String) : TraceState :=
  { visited := [], queue := queue, pending := [], rendered := [], files := [] }

/-! ### Render-event traces (concurrency bound) -/

/-- Start/finish instrumentation events of one page render. -/
inductive RenderEvent where
  | start (u : String)
  | finish (u : String)
deriving DecidableEq, Repr

/-- The targets of the start events of an event trace, in order. -/
def startsOf (t : List RenderEvent) : List String :=
  t.filterMap (fun e => match e with | .start u => some u | .finish _ => none)

/-- The targets of the finish events of an event trace, in order. -/
def finishesOf (t : List RenderEvent) : List String :=
  t.filterMap (fun e => match e with | .start _ => none | .finish u => some u)

/-- Number of renders in flight after an event trace: starts seen minus
finishes seen. -/
def inFlight (t : List RenderEvent) : Nat :=
  (startsOf t).length - (finishesOf t).length

/-! ### Image asset relocation (scrapePage, lines 129–183) -/

/-- An `<img>` element as the crawler sees it: its `src` and `srcset`
attributes (`none` when absent). -/
structure ImgTag where
  src : Option String
  srcset : Option String
deriving DecidableEq, Repr

/-- The image URL extraction of `src/tools.js` lines 130–149: per `<img>`,
the effective source resolved against the page origin (`resolve` models
`new URL(src, base).href`, `none` for the thrown case), unresolvable
entries being filtered out. -/
def imageHandles (resolve : String → Option String) (imgs : List ImgTag) : List String :=
  imgs.filterMap (fun img => resolve (imgEffectiveSrc img.srcset img.src))

/-- An HTTP response as the asset fetcher sees it (`response.ok`,
`content-type` header); a whole-fetch network error is modelled by
`Option.none` at the call site. -/
structure FetchResponse where
  ok : Bool
  contentType : Option String
deriving DecidableEq, Repr

/-- The image filename extension choice of `src/tools.js` lines 158–162:
`png` when the content type mentions it, `jpg` otherwise (also the
default). -/
def imageExtension (contentType : Option String) : String :=
  match contentType with
  | none => "jpg"
  | some ct =>
    if jsIncludes ct "png" then "png"
    else if jsIncludes ct "jpeg" || jsIncludes ct "jpg" then "jpg"
    else "jpg"

/-- One iteration of the image download loop of `src/tools.js`
lines 153–173 for the `i`-th image: on success the local asset path
`/scraped_website/assets/image_<now>_<i>.<ext>`, on a non-2xx response or
a network error (`none`) the original remote URL (the `catch` fallback of
line 171). `now` gives the `Date.now()` value observed at index `i`. -/
def relocateImage (fetch : String → Option FetchResponse) (now : Nat → Nat)
    (i : Nat) (imageUrl : String) : String :=
  match fetch imageUrl with
  | none => imageUrl
  | some r =>
    if r.ok then
      "/scraped_website/assets/image_" ++ toString (now i) ++ "_" ++ toString i
        ++ "." ++ imageExtension r.contentType
    else imageUrl

/-- The whole image download loop: the `localImagePaths` array, indexed in
step with the extracted image URLs. -/
def localImagePaths (fetch : String → Option FetchResponse) (now : Nat → Nat) :
    Nat → List String → List String
  | _, [] => []
  | i, u :: rest => relocateImage fetch now i u :: localImagePaths fetch now (i + 1) rest

/-- The in-page rewrite of `src/tools.js` lines 175–183: the `i`-th
`<img>` gets `newSources[i]` as its `src` when that entry exists and is
truthy, and loses its `srcset` attribute in every case. -/
def applyImageSources (newSources : List String) : Nat → List ImgTag → List ImgTag
  | _, [] => []
  | i, img :: rest =>
    (match newSources.get? i with
     | some s => if s ≠ "" then { src := some s, srcset := none }
                 else { img with srcset := none }
     | none => { img with srcset := none }) :: applyImageSources newSources (i + 1) rest

/-- The saved mirror document of one page, reduced to the parts the claims
inspect: its `<img>` elements after relocation. -/
structure SavedDoc where
  imgs : List ImgTag
deriving DecidableEq, Repr

/-- The per-page pipeline of `scrapePage` as far as images are concerned:
`nav` is `none` when `page.goto` fails (the per-target `catch` then writes
no file), otherwise the page's rendered `<img>` elements. On success the
mirror file is always written (`some` document), whatever the asset
fetches did. -/
def scrapePageDoc (resolve : String → Option String)
    (fetch : String → Option FetchResponse) (now : Nat → Nat)
    (nav : Option (List ImgTag)) : Option SavedDoc :=
  match nav with
  | none => none
  | some imgs =>
    let urls := imageHandles resolve imgs
    some { imgs := applyImageSources (localImagePaths fetch now 0 urls) 0 imgs }

/-! ### Mirror server lifecycle (webScraping lines 299–344, updateHtml
lines 434–454, restartServer lines 1650–1671)

The module-global `websiteServer` variable is modelled as an optional
handle identifier, and each lifecycle operation also reports the ordered
externally visible socket events it performs.  `close(resolve)` is awaited
in the source before any new `listen`, which is exactly what the event
order records. -/

/-- Externally visible socket events of the mirror server lifecycle:
a close being requested, a close having completed (the awaited `resolve`
callback), and a new listener binding the port. -/
inductive ServerEvent where
  | closeStart (h : Nat)
  | closeDone (h : Nat)
  | listen (h : Nat)
deriving DecidableEq, Repr

/-- The process-wide server state: the current `websiteServer` handle
(`none` when no server is running) and a supply of fresh handle ids. -/
structure ServerState where
  handle : Option Nat
  nextId : Nat
deriving DecidableEq, Repr

/-- Lifecycle operations of `src/tools.js`:
`bind` is a `webScraping` run reaching the final `app.listen`
(close any existing server at lines 300–303, crawl, then listen at
line 335); `bindAborted` is a `webScraping` run whose crawl fails after
the close (the `catch` at line 367 returns without listening);
`restart` is `restartServer` (lines 1650–1671) and the identical restart
block of `updateHtml` (lines 434–454): close-await-listen when a server
exists, nothing otherwise. -/
inductive ServerOp where
  | bind
  | bindAborted
  | restart
deriving DecidableEq, Repr

/-- The `webScraping` close-if-running prologue (`src/tools.js`
lines 299–303): awaited close of the existing listener. -/
def closeExisting (s : ServerState) : ServerState × List ServerEvent :=
  match s.handle with
  | some h => ({ s with handle := none }, [.closeStart h, .closeDone h])
  | none => (s, [])

/-- Run one lifecycle operation, returning the new state and the socket
events it performed in order. -/
def runServerOp (s : ServerState) : ServerOp → ServerState × List ServerEvent
  | .bind =>
    let (s1, e1) := closeExisting s
    ({ handle := some s1.nextId, nextId := s1.nextId + 1 }, e1 ++ [.listen s1.nextId])
  | .bindAborted => closeExisting s
  | .restart =>
    match s.handle with
    | some h =>
      ({ handle := some s.nextId, nextId := s.nextId + 1 },
        [.closeStart h, .closeDone h, .listen s.nextId])
    | none => (s, [])

/-- Run a sequence of lifecycle operations from a given state,
concatenating their event logs. -/
def runServerOps (s : ServerState) : List ServerOp → ServerState × List ServerEvent
  | [] => (s, [])
  | op :: ops =>
    let (s1, e1) := runServerOp s op
    let (s2, e2) := runServerOps s1 ops
    (s2, e1 ++ e2)

/-- The handles listening after a prefix of the event log: `listen` adds a
handle, `closeDone` (close completion) removes it; a `closeStart` alone
does not — the port is only free once the close has completed. -/
def applyServerEvent (active : List Nat) : ServerEvent → List Nat
  | .listen h => active ++ [h]
  | .closeDone h => active.erase h
  | .closeStart _ => active

/-- Handles simultaneously listening after a list of socket events. -/
def activeAfter (active : List Nat) (t : List ServerEvent) : List Nat :=
  t.foldl applyServerEvent active

/-- The process starts with no server running (`let websiteServer = null`,
`src/tools.js` line 18). -/
def initialServerState : ServerState :=
  { handle := none, nextId := 0 }

/-! ### updateHtml (src/tools.js lines 375–469) -/

/-- Result of `updateHtml`: the `success` flag and `message` of the
returned object. -/
structure UpdateResult where
  success : Bool
  message : String
deriving DecidableEq, Repr

/-- `updateHtml` from `src/tools.js` lines 375–469, acting on the content
of the addressed file (`none` when `fs.access` fails because the file does
not exist).  Returns the result object together with the file's content
after the call.  The guard models `!file || !oldText || !newText`
(missing-or-empty).  The text replacement
`content.replace(new RegExp(oldText, "g"), newText)` is modelled as
global literal replacement (the pattern used as a plain string), which is
what reaches the file for metacharacter-free `oldText`. -/
def updateHtml (file oldText newText : String) (content : Option String) :
    UpdateResult × Option String :=
  if file = "" || oldText = "" || newText = "" then
    ({ success := false,
       message := "Missing required parameters. File, oldText, and newText are all required." },
     content)
  else
    match content with
    | none =>
      ({ success := false, message := "File not found: " ++ file }, none)
    | some c =>
      if jsIncludes c oldText then
        ({ success := true,
           message := "Successfully updated " ++ file },
         some (c.replace oldText newText))
      else
        ({ success := false,
           message := "Text not found in " ++ file }, some c)

/-! ### Concrete example sites used by the end-to-end scenarios -/

/-- First page of the mutual-link scenario (spec scenario C). -/
def pageA : String := "https://site.test/a"

/-- Second page of the mutual-link scenario. -/
def pageB : String := "https://site.test/b"

/-- Two internal pages that link to each other, both rendering fine. -/
def twoPageSite : Site :=
  { urls := [pageA, pageB]
    links := fun u => if u = pageA then [pageB] else if u = pageB then [pageA] else []
    ok := fun _ => true }

/-- A one-page site whose only page's navigation times out
(spec scenario B). -/
def timeoutSite : Site :=
  { urls := ["https://t.test/x"], links := fun _ => [], ok := fun _ => false }

/-! ## Theorems -/

/-! ### Generic helper lemmas -/

theorem enqueueLink_mem {v q : List String} {l x : String}
    (h : x ∈ enqueueLink v q l) : x ∈ q ∨ x = l := by
  unfold enqueueLink at h
  split at h
  · rcases List.mem_append.mp h with h1 | h1
    · exact Or.inl h1
    · exact Or.inr (List.mem_singleton.mp h1)
  · exact Or.inl h

theorem enqueueLink_length {v q : List String} {l : String} :
    (enqueueLink v q l).length ≤ q.length + 1 := by
  unfold enqueueLink
  split
  · simp
  · simp

theorem enqueueLink_of_not_mem {v q : List String} {l : String}
    (h1 : l ∉ v) (h2 : l ∉ q) : enqueueLink v q l = q ++ [l] := by
  simp [enqueueLink, h1, h2]

theorem enqueueLink_of_mem {v q : List String} {l : String}
    (h : l ∈ v ∨ l ∈ q) : enqueueLink v q l = q := by
  unfold enqueueLink
  rcases h with h | h
  · simp [h]
  · simp [h]

/-! ### C6 — anchor rewriting -/

/-- C6: after link rewriting, an anchor whose `href` resolves same-origin
with the crawled page points to `/scraped_website<path>.html` with the
fragment appended verbatim and the query string discarded (the rewritten
href does not depend on the `search` component), a root pathname mapping
to `/index.html`; an anchor resolving cross-origin keeps its original
`href` unmodified. -/
theorem anchor_rewrite_local (base href : String) (u : URLRec) :
    (URLRec.origin u = base →
      rewriteAnchorHref base href (some u) =
        "/scraped_website" ++ anchorPathPart u.pathname ++ ".html" ++ u.hash ∧
      (∀ q : String, rewriteAnchorHref base href (some { u with search := q }) =
        rewriteAnchorHref base href (some u)) ∧
      anchorPathPart "/" = "/index") ∧
    (URLRec.origin u ≠ base → rewriteAnchorHref base href (some u) = href) := by
  constructor
  · intro h
    refine ⟨?_, ?_, ?_⟩
    · simp [rewriteAnchorHref, h]
    · intro q
      simp [rewriteAnchorHref, URLRec.origin]
    · decide
  · intro h
    simp [rewriteAnchorHref, h]

theorem anchor_rewrite_local_witness :
    rewriteAnchorHref "https://s.test" "https://s.test/a/?q=1#f"
        (some ⟨"https", "s.test", "/a/", "?q=1", "#f"⟩) =
      "/scraped_website/a.html#f" ∧
    rewriteAnchorHref "https://s.test" "https://other.test/x"
        (some ⟨"https", "other.test", "/x", "", ""⟩) = "https://other.test/x" := by
  constructor
  · have h := (anchor_rewrite_local "https://s.test" "https://s.test/a/?q=1#f"
      ⟨"https", "s.test", "/a/", "?q=1", "#f"⟩).1 (by decide)
    rw [h.1]
    decide
  · exact (anchor_rewrite_local "https://s.test" "https://other.test/x"
      ⟨"https", "other.test", "/x", "", ""⟩).2 (by decide)

/-! ### C7 — responsive image source selection -/

/-- C7 counterexample: for the srcset
`"https://e.test/big.jpg 2x, https://e.test/small.jpg 1x"` the code's
`getBestSrc` picks the **last** candidate `small.jpg` (density 1), not the
highest-resolution candidate `big.jpg` (density 2): the extracted
effective source differs from the highest-resolution candidate. -/
theorem getBestSrc_not_highest_res :
    getBestSrc (some "https://e.test/big.jpg 2x, https://e.test/small.jpg 1x") =
      some "https://e.test/small.jpg" ∧
    imgEffectiveSrc (some "https://e.test/big.jpg 2x, https://e.test/small.jpg 1x")
        (some "https://e.test/plain.jpg") = "https://e.test/small.jpg" ∧
    highestResCandidateUrl "https://e.test/big.jpg 2x, https://e.test/small.jpg 1x" =
      some "https://e.test/big.jpg" ∧
    ("https://e.test/small.jpg" : String) ≠ "https://e.test/big.jpg" := by
  refine ⟨by decide, by decide, by decide, by decide⟩

/-- C7 amended: for every `<img>` with a non-empty `srcset` attribute
whose last comma-separated candidate has a non-empty URL token, the
extracted effective source is that **last** candidate (the first
whitespace-separated token of the final entry) — not the
highest-resolution one — and the plain `src` attribute is ignored. -/
theorem imgEffectiveSrc_last_candidate (s : String) (src : Option String)
    (entry tok : List Char) (hs : s ≠ "")
    (hlast : (splitOnChar ',' s.toList).getLast? = some entry)
    (htok : (splitOnChar ' ' (jsTrim entry)).headD [] = tok)
    (hne : tok ≠ []) :
    getBestSrc (some s) = some ⟨tok⟩ ∧
    imgEffectiveSrc (some s) src = ⟨tok⟩ ∧
    lastCandidateUrl s = ⟨tok⟩ := by
  have hbest : getBestSrc (some s) = some ⟨tok⟩ := by
    unfold getBestSrc
    simp only [hs, if_false]
    rw [List.getLast?_map, hlast]
    show (if (splitOnChar ' ' (jsTrim entry)).headD [] = [] then none
          else some (⟨(splitOnChar ' ' (jsTrim entry)).headD []⟩ : String)) = some ⟨tok⟩
    rw [htok]
    simp [hne]
  refine ⟨hbest, ?_, ?_⟩
  · unfold imgEffectiveSrc
    rw [hbest]
  · unfold lastCandidateUrl
    rw [hlast]
    exact congrArg String.mk htok

theorem imgEffectiveSrc_last_candidate_witness :
    getBestSrc (some "a.jpg 1x, b.jpg 2x") = some "b.jpg" ∧
    imgEffectiveSrc (some "a.jpg 1x, b.jpg 2x") (some "plain.jpg") = "b.jpg" ∧
    lastCandidateUrl "a.jpg 1x, b.jpg 2x" = "b.jpg" :=
  imgEffectiveSrc_last_candidate "a.jpg 1x, b.jpg 2x" (some "plain.jpg")
    " b.jpg 2x".toList "b.jpg".toList (by decide) (by decide) (by decide) (by decide)

/-! ### C10 — updateHtml on a missing pattern -/

/-- C10: when the target file exists but its content does not contain
`oldText` as a substring, `updateHtml` returns `success = false` and the
file's content is left unchanged (no partial write occurs). -/
theorem updateHtml_text_not_found (file oldText newText c : String)
    (h : jsIncludes c oldText = false) :
    (updateHtml file oldText newText (some c)).1.success = false ∧
    (updateHtml file oldText newText (some c)).2 = some c := by
  unfold updateHtml
  by_cases hg : file = "" || oldText = "" || newText = ""
  · simp [hg]
  · simp [hg, h]

theorem updateHtml_text_not_found_witness :
    (updateHtml "index.html" "banner" "hero" (some "<p>hello</p>")).1.success = false ∧
    (updateHtml "index.html" "banner" "hero" (some "<p>hello</p>")).2 =
      some "<p>hello</p>" :=
  updateHtml_text_not_found "index.html" "banner" "hero" "<p>hello</p>" (by decide)

/-! ### C5 — navigation failure containment -/

/-- C5: a target whose navigation fails is contained at its own scope: it
is still counted as visited, no mirror file is written for it, the
frontier is untouched and the run continues (the `catch` makes
`processOne` total); for the run whose only (seed) page times out, the
result reports 1 page visited and no file written. -/
theorem navigation_failure_contained (site : Site) (s : CrawlState) (u : String)
    (hfresh : u ∉ s.visited) (hfail : site.ok u = false) :
    processOne site s u =
      { visited := u :: s.visited, queue := s.queue, files := s.files } ∧
    webScraping timeoutSite (some "https://t.test/x") = .scraped 1 [] := by
  constructor
  · simp [processOne, hfresh, hfail]
  · decide

theorem navigation_failure_contained_witness :
    processOne timeoutSite { visited := [], queue := [], files := [] }
        "https://t.test/x" =
      { visited := ["https://t.test/x"], queue := [], files := [] } ∧
    webScraping timeoutSite (some "https://t.test/x") = .scraped 1 [] :=
  navigation_failure_contained timeoutSite
    { visited := [], queue := [], files := [] } "https://t.test/x"
    (by decide) (by decide)

/-! ### C1 — dedup invariant under interleaving -/

/-- The inductive invariant of the interleaved crawl trace model: renders
and files are duplicate-free, and every dispatched or written target is
recorded visited. -/
structure TraceInv (s : TraceState) : Prop where
  rendered_nodup : s.rendered.Nodup
  files_nodup : s.files.Nodup
  pending_nodup : s.pending.Nodup
  rendered_visited : ∀ u ∈ s.rendered, u ∈ s.visited
  pending_visited : ∀ u ∈ s.pending, u ∈ s.visited
  files_visited : ∀ u ∈ s.files, u ∈ s.visited
  files_pending_disjoint : ∀ u ∈ s.files, u ∉ s.pending

theorem cstep_inv {s1 s2 : TraceState} {a : CrawlAct}
    (h : CStep s1 a s2) (hi : TraceInv s1) : TraceInv s2 := by
  cases h with
  | dispatch hu =>
    refine ⟨?_, hi.files_nodup, ?_, ?_, ?_, ?_, ?_⟩
    · rw [List.nodup_append]
      exact ⟨hi.rendered_nodup, List.nodup_singleton _,
        fun x hx hx1 => hu ((List.mem_singleton.mp hx1) ▸ hi.rendered_visited x hx)⟩
    · exact List.Nodup.cons (fun hp => hu (hi.pending_visited _ hp)) hi.pending_nodup
    · intro x hx
      rcases List.mem_append.mp hx with hx | hx
      · exact List.mem_cons_of_mem _ (hi.rendered_visited x hx)
      · exact (List.mem_singleton.mp hx) ▸ List.mem_cons_self _ _
    · intro x hx
      rcases List.mem_cons.mp hx with rfl | hx
      · exact List.mem_cons_self _ _
      · exact List.mem_cons_of_mem _ (hi.pending_visited x hx)
    · exact fun x hx => List.mem_cons_of_mem _ (hi.files_visited x hx)
    · intro x hx hx2
      rcases List.mem_cons.mp hx2 with rfl | hx2
      · exact hu (hi.files_visited x hx)
      · exact hi.files_pending_disjoint x hx hx2
  | dispatchHit hu => exact hi
  | discover =>
    exact ⟨hi.rendered_nodup, hi.files_nodup, hi.pending_nodup,
      hi.rendered_visited, hi.pending_visited, hi.files_visited,
      hi.files_pending_disjoint⟩
  | finishOk hu =>
    refine ⟨hi.rendered_nodup, ?_, hi.pending_nodup.erase _,
      hi.rendered_visited, ?_, ?_, ?_⟩
    · rw [List.nodup_append]
      exact ⟨hi.files_nodup, List.nodup_singleton _,
        fun x hx hx1 => hi.files_pending_disjoint x hx ((List.mem_singleton.mp hx1) ▸ hu)⟩
    · exact fun x hx => hi.pending_visited x (List.mem_of_mem_erase hx)
    · intro x hx
      rcases List.mem_append.mp hx with hx | hx
      · exact hi.files_visited x hx
      · obtain rfl := List.mem_singleton.mp hx
        exact hi.pending_visited _ hu
    · intro x hx hx2
      rcases List.mem_append.mp hx with hx | hx
      · exact hi.files_pending_disjoint x hx (List.mem_of_mem_erase hx2)
      · exact hi.pending_nodup.not_mem_erase ((List.mem_singleton.mp hx) ▸ hx2)
  | finishFail hu =>
    refine ⟨hi.rendered_nodup, hi.files_nodup, hi.pending_nodup.erase _,
      hi.rendered_visited, ?_, hi.files_visited, ?_⟩
    · exact fun x hx => hi.pending_visited x (List.mem_of_mem_erase hx)
    · exact fun x hx hx2 => hi.files_pending_disjoint x hx (List.mem_of_mem_erase hx2)

theorem trace_inv {s1 s2 : TraceState} (h : Trace s1 s2) (hi : TraceInv s1) :
    TraceInv s2 := by
  induction h with
  | refl s => exact hi
  | step hs _ ih => exact ih (cstep_inv hs hi)

/-- C1: in every state reachable, under any interleaving of concurrent
`scrapePage` workers, from a fresh crawl state, no target is rendered
twice and no target's mirror file is written twice (a target already in
the visited set is never dispatched again), and the enqueue guard admits a
discovered link exactly when it is neither visited nor already in the
frontier. -/
theorem crawl_dedup (queue : List String) (s : TraceState)
    (h : Trace (initialTraceState queue) s) :
    s.rendered.Nodup ∧ s.files.Nodup ∧
    (∀ v q l, (l ∉ v ∧ l ∉ q → enqueueLink v q l = q ++ [l]) ∧
      ((l ∈ v ∨ l ∈ q) → enqueueLink v q l = q)) := by
  have hi : TraceInv (initialTraceState queue) := by
    constructor <;> simp [initialTraceState]
  have h2 := trace_inv h hi
  exact ⟨h2.rendered_nodup, h2.files_nodup,
    fun v q l => ⟨fun hl => enqueueLink_of_not_mem hl.1 hl.2, enqueueLink_of_mem⟩⟩

theorem crawl_dedup_witness :
    ([pageA] : List String).Nodup ∧ ([pageA] : List String).Nodup ∧
    (∀ v q l, (l ∉ v ∧ l ∉ q → enqueueLink v q l = q ++ [l]) ∧
      ((l ∈ v ∨ l ∈ q) → enqueueLink v q l = q)) :=
  crawl_dedup [pageA]
    { visited := [pageA], queue := [pageA], pending := [pageA].erase pageA,
      rendered := [pageA], files := [] ++ [pageA] }
    (Trace.step (@CStep.dispatch (initialTraceState [pageA]) pageA (by decide))
      (Trace.step
        (@CStep.finishOk
          { visited := [pageA], queue := [pageA], pending := [pageA],
            rendered := [pageA], files := [] } pageA (by decide))
        (Trace.refl _)))

/-! ### C2 — concurrency bound -/

theorem startsOf_append (t1 t2 : List RenderEvent) :
    startsOf (t1 ++ t2) = startsOf t1 ++ startsOf t2 := by
  simp [startsOf]

/-- C2: in any render-event trace of one scheduler batch — each dispatched
target starts exactly once, in any interleaving — no prefix ever has more
than `CONCURRENCY_LIMIT = 5` renders in flight, because the batch spliced
off the frontier holds at most `CONCURRENCY_LIMIT` targets and every
render of the batch is dispatched inside it. -/
theorem renders_in_flight_bounded (q : List String) (t p : List RenderEvent)
    (hstart : List.Perm (startsOf t) (q.take CONCURRENCY_LIMIT))
    (hpre : p <+: t) :
    inFlight p ≤ CONCURRENCY_LIMIT ∧
    (q.take CONCURRENCY_LIMIT).length ≤ CONCURRENCY_LIMIT ∧
    CONCURRENCY_LIMIT = 5 ∧
    (∀ (site : Site) (s : CrawlState), crawlStep site s =
      (s.queue.take CONCURRENCY_LIMIT).foldl (processOne site)
        { s with queue := s.queue.drop CONCURRENCY_LIMIT }) := by
  have h1 : inFlight p ≤ (startsOf p).length := Nat.sub_le _ _
  have h2 : (startsOf p).length ≤ (startsOf t).length := by
    obtain ⟨r, rfl⟩ := hpre
    rw [startsOf_append]
    simp
  have h3 : (startsOf t).length = (q.take CONCURRENCY_LIMIT).length :=
    hstart.length_eq
  have h4 : (q.take CONCURRENCY_LIMIT).length ≤ CONCURRENCY_LIMIT := by
    rw [List.length_take]
    exact min_le_left _ _
  exact ⟨by omega, h4, rfl, fun site s => rfl⟩

theorem renders_in_flight_bounded_witness :
    inFlight [.start "a", .start "b", .start "c", .start "d", .start "e"] ≤
      CONCURRENCY_LIMIT ∧
    ((["a", "b", "c", "d", "e", "f"] : List String).take CONCURRENCY_LIMIT).length ≤
      CONCURRENCY_LIMIT ∧
    CONCURRENCY_LIMIT = 5 ∧
    (∀ (site : Site) (s : CrawlState), crawlStep site s =
      (s.queue.take CONCURRENCY_LIMIT).foldl (processOne site)
        { s with queue := s.queue.drop CONCURRENCY_LIMIT }) :=
  renders_in_flight_bounded ["a", "b", "c", "d", "e", "f"]
    [.start "a", .start "b", .start "c", .start "d", .start "e",
     .finish "a", .finish "b", .finish "c", .finish "d", .finish "e"]
    [.start "a", .start "b", .start "c", .start "d", .start "e"]
    (by decide) (by decide)

/-! ### C9 — mirror server singleton -/

theorem prefix_cons_cases {α : Type} {p : List α} {x : α} {xs : List α}
    (h : p <+: x :: xs) : p = [] ∨ ∃ p2, p = x :: p2 ∧ p2 <+: xs := by
  cases p with
  | nil => exact Or.inl rfl
  | cons a as =>
    rw [List.cons_prefix_cons] at h
    exact Or.inr ⟨as, by rw [h.1], h.2⟩

theorem prefix_append_cases {α : Type} :
    ∀ {t1 t2 p : List α}, p <+: t1 ++ t2 →
      p <+: t1 ∨ ∃ p2, p = t1 ++ p2 ∧ p2 <+: t2 := by
  intro t1
  induction t1 with
  | nil => exact fun h => Or.inr ⟨_, rfl, h⟩
  | cons x xs ih =>
    intro t2 p h
    rcases prefix_cons_cases h with rfl | ⟨p2, rfl, hp2⟩
    · exact Or.inl (List.nil_prefix)
    · rcases ih hp2 with h1 | ⟨p3, rfl, hp3⟩
      · exact Or.inl (by rw [List.cons_prefix_cons]; exact ⟨rfl, h1⟩)
      · exact Or.inr ⟨p3, rfl, hp3⟩

theorem activeAfter_append (a : List Nat) (t1 t2 : List ServerEvent) :
    activeAfter a (t1 ++ t2) = activeAfter (activeAfter a t1) t2 := by
  simp [activeAfter]

/-- One lifecycle operation keeps at most one listener active at every
intermediate point, and ends consistent with the stored handle. -/
theorem runServerOp_bounded (st : ServerState) (op : ServerOp)
    (active : List Nat) (hc : active = st.handle.toList) :
    (∀ p, p <+: (runServerOp st op).2 → (activeAfter active p).length ≤ 1) ∧
    activeAfter active (runServerOp st op).2 = (runServerOp st op).1.handle.toList := by
  subst hc
  cases op with
  | bind =>
    cases hh : st.handle with
    | none =>
      constructor
      · intro p hp
        rcases prefix_cons_cases (by simpa [runServerOp, closeExisting, hh] using hp)
          with rfl | ⟨p2, rfl, hp2⟩
        · simp [activeAfter, hh]
        · obtain rfl := List.eq_nil_of_prefix_nil hp2
          simp [activeAfter, applyServerEvent, hh]
      · simp [runServerOp, closeExisting, hh, activeAfter, applyServerEvent]
    | some h0 =>
      constructor
      · intro p hp
        simp only [runServerOp, closeExisting, hh] at hp
        rcases prefix_cons_cases hp with rfl | ⟨p2, rfl, hp2⟩
        · simp [activeAfter, hh]
        · rcases prefix_cons_cases hp2 with rfl | ⟨p3, rfl, hp3⟩
          · simp [activeAfter, applyServerEvent, hh]
          · rcases prefix_cons_cases hp3 with rfl | ⟨p4, rfl, hp4⟩
            · simp [activeAfter, applyServerEvent, hh]
            · obtain rfl := List.eq_nil_of_prefix_nil hp4
              simp [activeAfter, applyServerEvent, hh]
      · simp [runServerOp, closeExisting, hh, activeAfter, applyServerEvent]
  | bindAborted =>
    cases hh : st.handle with
    | none =>
      constructor
      · intro p hp
        obtain rfl := List.eq_nil_of_prefix_nil
          (by simpa [runServerOp, closeExisting, hh] using hp)
        simp [activeAfter, hh]
      · simp [runServerOp, closeExisting, hh, activeAfter]
    | some h0 =>
      constructor
      · intro p hp
        simp only [runServerOp, closeExisting, hh] at hp
        rcases prefix_cons_cases hp with rfl | ⟨p2, rfl, hp2⟩
        · simp [activeAfter, hh]
        · rcases prefix_cons_cases hp2 with rfl | ⟨p3, rfl, hp3⟩
          · simp [activeAfter, applyServerEvent, hh]
          · obtain rfl := List.eq_nil_of_prefix_nil hp3
            simp [activeAfter, applyServerEvent, hh]
      · simp [runServerOp, closeExisting, hh, activeAfter, applyServerEvent]
  | restart =>
    cases hh : st.handle with
    | none =>
      constructor
      · intro p hp
        obtain rfl := List.eq_nil_of_prefix_nil
          (by simpa [runServerOp, hh] using hp)
        simp [activeAfter, hh]
      · simp [runServerOp, hh, activeAfter]
    | some h0 =>
      constructor
      · intro p hp
        simp only [runServerOp, hh] at hp
        rcases prefix_cons_cases hp with rfl | ⟨p2, rfl, hp2⟩
        · simp [activeAfter, hh]
        · rcases prefix_cons_cases hp2 with rfl | ⟨p3, rfl, hp3⟩
          · simp [activeAfter, applyServerEvent, hh]
          · rcases prefix_cons_cases hp3 with rfl | ⟨p4, rfl, hp4⟩
            · simp [activeAfter, applyServerEvent, hh]
            · obtain rfl := List.eq_nil_of_prefix_nil hp4
              simp [activeAfter, applyServerEvent, hh]
      · simp [runServerOp, hh, activeAfter, applyServerEvent]

/-- Any sequence of lifecycle operations keeps at most one listener at
every intermediate point of its event log. -/
theorem runServerOps_bounded (ops : List ServerOp) :
    ∀ (st : ServerState) (active : List Nat), active = st.handle.toList →
      (∀ p, p <+: (runServerOps st ops).2 → (activeAfter active p).length ≤ 1) ∧
      activeAfter active (runServerOps st ops).2 =
        (runServerOps st ops).1.handle.toList := by
  induction ops with
  | nil =>
    intro st active hc
    constructor
    · intro p hp
      obtain rfl := List.eq_nil_of_prefix_nil hp
      rw [hc]
      cases st.handle <;> simp [activeAfter]
    · exact hc
  | cons op ops ih =>
    intro st active hc
    have h1 := runServerOp_bounded st op active hc
    have h2 := ih (runServerOp st op).1 (activeAfter active (runServerOp st op).2) h1.2
    constructor
    · intro p hp
      simp only [runServerOps] at hp
      rcases prefix_append_cases hp with hp1 | ⟨p2, rfl, hp2⟩
      · exact h1.1 p hp1
      · rw [activeAfter_append]
        exact h2.1 p2 hp2
    · simp only [runServerOps]
      rw [activeAfter_append]
      exact h2.2

/-- C9: starting from the process's initial state (no server running),
after any sequence of crawl-end binds and on-disk-update restarts, every
prefix of the socket event log leaves at most one listener bound: each
`listen` is preceded by the awaited close completion of the previous
handle, so two simultaneously listening handles never exist. -/
theorem server_singleton (ops : List ServerOp) (p : List ServerEvent)
    (hp : p <+: (runServerOps initialServerState ops).2) :
    (activeAfter [] p).length ≤ 1 :=
  (runServerOps_bounded ops initialServerState [] rfl).1 p hp

theorem server_singleton_witness :
    (activeAfter []
      [.listen 0, .closeStart 0, .closeDone 0, .listen 1]).length ≤ 1 :=
  server_singleton [.bind, .restart]
    [.listen 0, .closeStart 0, .closeDone 0, .listen 1] (by decide)

/-! ### C8 — graceful image-fetch degradation -/

theorem localImagePaths_get? (fetch : String → Option FetchResponse)
    (now : Nat → Nat) :
    ∀ (urls : List String) (i j : Nat),
      (localImagePaths fetch now i urls).get? j =
        (urls.get? j).map (fun u => relocateImage fetch now (i + j) u) := by
  intro urls
  induction urls with
  | nil => intro i j; simp [localImagePaths]
  | cons u rest ih =>
    intro i j
    cases j with
    | zero => simp [localImagePaths]
    | succ j =>
      simp only [localImagePaths, List.get?_cons_succ, ih (i + 1) j]
      have : i + 1 + j = i + (j + 1) := by omega
      rw [this]

theorem applyImageSources_get? (ns : List String) :
    ∀ (imgs : List ImgTag) (i j : Nat),
      (applyImageSources ns i imgs).get? j =
        (imgs.get? j).map (fun img =>
          match ns.get? (i + j) with
          | some s => if s ≠ "" then { src := some s, srcset := none }
                      else { img with srcset := none }
          | none => { img with srcset := none }) := by
  intro imgs
  induction imgs with
  | nil => intro i j; simp [applyImageSources]
  | cons img rest ih =>
    intro i j
    cases j with
    | zero => simp [applyImageSources]
    | succ j =>
      simp only [applyImageSources, List.get?_cons_succ, ih (i + 1) j]
      have : i + 1 + j = i + (j + 1) := by omega
      rw [this]

theorem imageHandles_get? (resolve : String → Option String) :
    ∀ (imgs : List ImgTag) (j : Nat),
      (∀ im ∈ imgs, (resolve (imgEffectiveSrc im.srcset im.src)).isSome) →
      (imageHandles resolve imgs).get? j =
        (imgs.get? j).bind (fun im => resolve (imgEffectiveSrc im.srcset im.src)) := by
  intro imgs
  induction imgs with
  | nil => intro j _; simp [imageHandles]
  | cons img rest ih =>
    intro j hall
    obtain ⟨r, hr⟩ := Option.isSome_iff_exists.mp (hall img (List.mem_cons_self _ _))
    cases j with
    | zero => simp [imageHandles, List.filterMap_cons, hr]
    | succ j =>
      have hrest := ih j (fun im him => hall im (List.mem_cons_of_mem _ him))
      simp only [imageHandles, List.filterMap_cons, hr, List.get?_cons_succ,
        List.get?_cons_succ]
      simpa [imageHandles] using hrest

/-- C8: when an image asset's fetch fails — a network error (`none`) or a
non-2xx response — the page is still processed and its mirror document is
produced (`some`, for every fetch oracle, so the write happens whatever
the asset fetches did), and that image's `src` attribute in the saved
document equals the original remote URL, with the `srcset` attribute
removed. -/
theorem image_fetch_failure_graceful (resolve : String → Option String)
    (fetch : String → Option FetchResponse) (now : Nat → Nat)
    (imgs : List ImgTag) (j : Nat) (img : ImgTag) (u : String)
    (hall : ∀ im ∈ imgs, (resolve (imgEffectiveSrc im.srcset im.src)).isSome)
    (hj : imgs.get? j = some img)
    (hres : resolve (imgEffectiveSrc img.srcset img.src) = some u)
    (hfail : fetch u = none ∨ ∃ r, fetch u = some r ∧ r.ok = false)
    (hu : u ≠ "") :
    ∃ doc, scrapePageDoc resolve fetch now (some imgs) = some doc ∧
      doc.imgs.get? j = some { src := some u, srcset := none } := by
  refine ⟨_, rfl, ?_⟩
  have hurl : (imageHandles resolve imgs).get? j = some u := by
    rw [imageHandles_get? resolve imgs j hall, hj]
    exact hres
  have hreloc : ∀ i, relocateImage fetch now i u = u := by
    intro i
    unfold relocateImage
    rcases hfail with hf | ⟨r, hf, hok⟩
    · rw [hf]
    · rw [hf]
      simp [hok]
  have hpaths : (localImagePaths fetch now 0 (imageHandles resolve imgs)).get? j
      = some u := by
    rw [localImagePaths_get?, hurl]
    simp [hreloc]
  show (applyImageSources (localImagePaths fetch now 0 (imageHandles resolve imgs))
      0 imgs).get? j = some { src := some u, srcset := none }
  rw [applyImageSources_get? _ imgs 0 j, hj]
  have hpaths2 : (localImagePaths fetch now 0 (imageHandles resolve imgs))[j]? =
      some u := (List.get?_eq_getElem? _ _).symm.trans hpaths
  simp [hpaths2, hu]

theorem image_fetch_failure_graceful_witness :
    ∃ doc,
      scrapePageDoc (fun s => if s = "" then none else some s) (fun _ => none)
        (fun _ => 0) (some [{ src := some "https://x.test/i.png", srcset := none }]) =
        some doc ∧
      doc.imgs.get? 0 = some { src := some "https://x.test/i.png", srcset := none } :=
  image_fetch_failure_graceful (fun s => if s = "" then none else some s)
    (fun _ => none) (fun _ => 0)
    [{ src := some "https://x.test/i.png", srcset := none }] 0
    { src := some "https://x.test/i.png", srcset := none } "https://x.test/i.png"
    (by decide) (by decide) (by decide) (Or.inl rfl) (by decide)

/-! ### C3 — termination of the dequeue loop -/

theorem foldl_enqueueLink_length (v : List String) :
    ∀ (links q : List String),
      (links.foldl (fun q l => enqueueLink v q l) q).length ≤ q.length + links.length := by
  intro links
  induction links with
  | nil => intro q; simp
  | cons l rest ih =>
    intro q
    calc (rest.foldl (fun q l => enqueueLink v q l) (enqueueLink v q l)).length
        ≤ (enqueueLink v q l).length + rest.length := ih _
      _ ≤ q.length + 1 + rest.length :=
          Nat.add_le_add_right enqueueLink_length _
      _ = q.length + (rest.length + 1) := by omega
      _ = q.length + (l :: rest).length := by simp

theorem foldl_enqueueLink_mem (v : List String) :
    ∀ (links q : List String) (x : String),
      x ∈ links.foldl (fun q l => enqueueLink v q l) q → x ∈ q ∨ x ∈ links := by
  intro links
  induction links with
  | nil => intro q x hx; exact Or.inl hx
  | cons l rest ih =>
    intro q x hx
    rcases ih _ x hx with hx1 | hx1
    · rcases enqueueLink_mem hx1 with hx2 | rfl
      · exact Or.inl hx2
      · exact Or.inr (List.mem_cons_self _ _)
    · exact Or.inr (List.mem_cons_of_mem _ hx1)

theorem unvisitedCount_cons (site : Site) (v : List String) (u : String)
    (hu : u ∈ site.urls) (hv : u ∉ v) :
    (site.urls.toFinset \ (u :: v).toFinset).card + 1 =
      (site.urls.toFinset \ v.toFinset).card := by
  rw [List.toFinset_cons, Finset.sdiff_insert]
  have hmem : u ∈ site.urls.toFinset \ v.toFinset :=
    Finset.mem_sdiff.mpr
      ⟨List.mem_toFinset.mpr hu, fun hx => hv (List.mem_toFinset.mp hx)⟩
  rw [Finset.card_erase_of_mem hmem]
  have hpos : 0 < (site.urls.toFinset \ v.toFinset).card :=
    Finset.card_pos.mpr ⟨u, hmem⟩
  omega

theorem links_length_le (site : Site) (hwf : SiteWF site) (u : String) :
    (site.links u).length ≤ site.urls.length := by
  calc (site.links u).length = (site.links u).toFinset.card :=
        (List.toFinset_card_of_nodup (hwf.links_nodup u)).symm
    _ ≤ site.urls.toFinset.card :=
        Finset.card_le_card (fun x hx =>
          List.mem_toFinset.mpr (hwf.links_mem u x (List.mem_toFinset.mp hx)))
    _ ≤ site.urls.length := List.toFinset_card_le _

theorem processOne_eq_visited (site : Site) (s : CrawlState) (u : String)
    (hv : u ∈ s.visited) : processOne site s u = s := by
  unfold processOne
  simp [hv]

theorem processOne_eq_ok (site : Site) (s : CrawlState) (u : String)
    (hv : u ∉ s.visited) (hok : site.ok u = true) :
    processOne site s u =
      { visited := u :: s.visited
        queue := (site.links u).foldl
          (fun q l => enqueueLink (u :: s.visited) q l) s.queue
        files := s.files ++ [u] } := by
  unfold processOne
  simp [hv, hok]

theorem processOne_eq_fail (site : Site) (s : CrawlState) (u : String)
    (hv : u ∉ s.visited) (hok : site.ok u = false) :
    processOne site s u =
      { visited := u :: s.visited, queue := s.queue, files := s.files } := by
  unfold processOne
  simp [hv, hok]

theorem crawlMeasure_mk (site : Site) (v q f : List String) :
    crawlMeasure site { visited := v, queue := q, files := f } =
      (site.urls.toFinset \ v.toFinset).card * (site.urls.length + 1) + q.length :=
  rfl

theorem crawlMeasure_processOne (site : Site) (hwf : SiteWF site)
    (s : CrawlState) (u : String) (hu : u ∈ site.urls) (hq : queueInv site s) :
    crawlMeasure site (processOne site s u) ≤ crawlMeasure site s ∧
    queueInv site (processOne site s u) := by
  by_cases hv : u ∈ s.visited
  · rw [processOne_eq_visited site s u hv]
    exact ⟨le_refl _, hq⟩
  · by_cases hok : site.ok u = true
    · rw [processOne_eq_ok site s u hv hok]
      constructor
      · rw [crawlMeasure_mk]
        unfold crawlMeasure unvisitedCount
        have hql := foldl_enqueueLink_length (u :: s.visited) (site.links u) s.queue
        have hll := links_length_le site hwf u
        have hun := unvisitedCount_cons site s.visited u hu hv
        rw [← hun, Nat.succ_mul]
        omega
      · intro x hx
        rcases foldl_enqueueLink_mem _ _ _ x hx with hx1 | hx1
        · exact hq x hx1
        · exact hwf.links_mem u x hx1
    · have hok2 : site.ok u = false := by
        cases hb : site.ok u
        · rfl
        · exact absurd hb hok
      rw [processOne_eq_fail site s u hv hok2]
      constructor
      · rw [crawlMeasure_mk]
        unfold crawlMeasure unvisitedCount
        have hun := unvisitedCount_cons site s.visited u hu hv
        rw [← hun, Nat.succ_mul]
        omega
      · exact hq

theorem crawlMeasure_foldl (site : Site) (hwf : SiteWF site) :
    ∀ (batch : List String) (s : CrawlState),
      (∀ x ∈ batch, x ∈ site.urls) → queueInv site s →
      crawlMeasure site (batch.foldl (processOne site) s) ≤ crawlMeasure site s ∧
      queueInv site (batch.foldl (processOne site) s) := by
  intro batch
  induction batch with
  | nil => exact fun s _ hq => ⟨le_refl _, hq⟩
  | cons u rest ih =>
    intro s hmem hq
    have h1 := crawlMeasure_processOne site hwf s u (hmem u (List.mem_cons_self _ _)) hq
    have h2 := ih (processOne site s u)
      (fun x hx => hmem x (List.mem_cons_of_mem _ hx)) h1.2
    exact ⟨le_trans h2.1 h1.1, h2.2⟩

theorem crawlMeasure_crawlStep (site : Site) (hwf : SiteWF site) (s : CrawlState)
    (hq : queueInv site s) (hne : s.queue ≠ []) :
    crawlMeasure site (crawlStep site s) < crawlMeasure site s ∧
    queueInv site (crawlStep site s) := by
  unfold crawlStep
  simp only
  have hbatchmem : ∀ x ∈ s.queue.take CONCURRENCY_LIMIT, x ∈ site.urls :=
    fun x hx => hq x (List.take_subset _ _ hx)
  have hq1 : queueInv site { s with queue := s.queue.drop CONCURRENCY_LIMIT } :=
    fun x hx => hq x (List.drop_subset _ _ hx)
  have hfold := crawlMeasure_foldl site hwf (s.queue.take CONCURRENCY_LIMIT)
    { s with queue := s.queue.drop CONCURRENCY_LIMIT } hbatchmem hq1
  refine ⟨lt_of_le_of_lt hfold.1 ?_, hfold.2⟩
  unfold crawlMeasure unvisitedCount
  simp only [List.length_drop]
  have hlen : 0 < s.queue.length := List.length_pos.mpr hne
  have hcl : 0 < CONCURRENCY_LIMIT := by decide
  omega

theorem crawlLoop_drains (site : Site) (hwf : SiteWF site) :
    ∀ (fuel : Nat) (s : CrawlState), queueInv site s →
      crawlMeasure site s ≤ fuel → (crawlLoop site fuel s).queue = [] := by
  intro fuel
  induction fuel with
  | zero =>
    intro s hq hm
    have hz : s.queue.length = 0 := by
      unfold crawlMeasure at hm
      omega
    show s.queue = []
    exact List.length_eq_zero.mp hz
  | succ n ih =>
    intro s hq hm
    show (if s.queue = [] then s else crawlLoop site n (crawlStep site s)).queue = []
    by_cases hqe : s.queue = []
    · simp [hqe]
    · simp only [hqe, if_false]
      have hstep := crawlMeasure_crawlStep site hwf s hq hqe
      exact ih _ hstep.2 (by omega)

theorem twoPageSite_wf : SiteWF twoPageSite := by
  constructor
  · intro u l hl
    show l ∈ [pageA, pageB]
    by_cases h1 : u = pageA
    · subst h1
      have he : twoPageSite.links pageA = [pageB] := by decide
      rw [he] at hl
      obtain rfl := List.mem_singleton.mp hl
      decide
    · by_cases h2 : u = pageB
      · subst h2
        have he : twoPageSite.links pageB = [pageA] := by decide
        rw [he] at hl
        obtain rfl := List.mem_singleton.mp hl
        decide
      · simp [twoPageSite, h1, h2] at hl
  · intro u
    by_cases h1 : u = pageA
    · subst h1; decide
    · by_cases h2 : u = pageB
      · subst h2; decide
      · show (if u = pageA then [pageB] else if u = pageB then [pageA] else []).Nodup
        simp [h1, h2]

/-- C3: on any site abstraction with finitely many distinct normalized
URLs (well-formed links), the dequeue loop reaches the empty-frontier
state — `crawlMeasure` fuel always drains the queue, even in the presence
of link cycles; in particular, for two internal pages that mutually link
to each other, the run terminates having written exactly 2 files and
reporting 2 pages visited. -/
theorem crawl_reaches_empty_frontier (site : Site) (s : CrawlState)
    (hwf : SiteWF site) (hq : queueInv site s) :
    (crawlLoop site (crawlMeasure site s) s).queue = [] ∧
    webScraping twoPageSite (some pageA) = .scraped 2 [pageA, pageB] :=
  ⟨crawlLoop_drains site hwf _ s hq (le_refl _), by decide⟩

theorem crawl_reaches_empty_frontier_witness :
    (crawlLoop twoPageSite (crawlMeasure twoPageSite (initialCrawlState pageA))
      (initialCrawlState pageA)).queue = [] ∧
    webScraping twoPageSite (some pageA) = .scraped 2 [pageA, pageB] :=
  crawl_reaches_empty_frontier twoPageSite (initialCrawlState pageA)
    twoPageSite_wf
    (by intro x hx; obtain rfl := List.mem_singleton.mp hx; decide)

/-! ### C4 — seed URL validation -/

/-- C4 counterexample: the seed string `"not a url"` fails URL parsing,
yet `webScraping` does **not** abort with an invalid-URL failure: the
frontier is seeded with the `null` normalization result, the single
dequeued entry is dropped by `scrapePage`'s guard, and the run completes
normally reporting 0 pages scraped. -/
theorem invalid_seed_completes_normally :
    normalizeUrl "not a url" = none ∧
    webScraping twoPageSite (some "not a url") = .scraped 0 [] ∧
    webScraping twoPageSite (some "not a url") ≠ .invalidOrMissing :=
  ⟨by decide, by decide, by decide⟩

/-- C4 amended: a missing or non-string seed, or the empty string (falsy),
yields the early `"Invalid or missing URL."` return without crawling; a
non-empty seed string that fails URL parsing does **not** abort the run —
`webScraping` completes normally with zero pages visited and no files
written; and an unparsable discovered URL is silently dropped by link
extraction, leaving the frontier unaffected. -/
theorem invalid_url_handling (site : Site) (u origin bad : String)
    (hrefs : List String) (hu : u ≠ "") (hparse : normalizeUrl u = none)
    (hbad : parseAbsoluteUrl bad = none) :
    webScraping site none = .invalidOrMissing ∧
    webScraping site (some "") = .invalidOrMissing ∧
    webScraping site (some u) = .scraped 0 [] ∧
    extractInternalLinks origin (bad :: hrefs) = extractInternalLinks origin hrefs := by
  refine ⟨rfl, by simp [webScraping], ?_, ?_⟩
  · unfold webScraping
    simp [hu, hparse]
  · unfold extractInternalLinks
    simp [List.filterMap_cons, hbad]

theorem invalid_url_handling_witness :
    webScraping twoPageSite none = .invalidOrMissing ∧
    webScraping twoPageSite (some "") = .invalidOrMissing ∧
    webScraping twoPageSite (some "not a url") = .scraped 0 [] ∧
    extractInternalLinks "https://site.test" ("xyz:" :: ["https://site.test/a"]) =
      extractInternalLinks "https://site.test" ["https://site.test/a"] :=
  invalid_url_handling twoPageSite "not a url" "https://site.test" "xyz:"
    ["https://site.test/a"] (by decide) (by decide) (by decide)

end Domorph
